import Mathlib

/-!
Verification of the Twitter/X interaction-reward pipeline, the rate-limited
API client and the write-behind stats aggregator of the `ebisu` repository.

Each definition is a shallow embedding of the corresponding JavaScript
function; the source file and function are named in the doc comment.
JavaScript machine details that matter here:
* `Array.from(new Set(xs))` deduplicates keeping the first occurrence of
  each element (insertion order) — modelled by `jsDedup`;
* a `Map` keeps insertion order and `Map.set` appends new keys — modelled
  by association lists;
* `undefined + n` and `NaN + n` are `NaN` — modelled by `JsVal`/`jsAdd`.
-/

/-- First-occurrence deduplication, the order produced by the JavaScript
idiom `Array.from(new Set(xs))`; `seen` holds the elements already kept. -/
def jsDedupAux (seen : List String) : List String → List String
  | [] => []
  | x :: xs => if x ∈ seen then jsDedupAux seen xs else x :: jsDedupAux (x :: seen) xs

/-- `Array.from(new Set(l))`. -/
def jsDedup (l : List String) : List String :=
  jsDedupAux [] l

theorem mem_jsDedupAux {x : String} {seen l : List String} :
    x ∈ jsDedupAux seen l ↔ x ∈ l ∧ x ∉ seen := by
  induction l generalizing seen with
  | nil => simp [jsDedupAux]
  | cons a l ih =>
    by_cases ha : a ∈ seen
    · rw [jsDedupAux, if_pos ha, ih]
      simp only [List.mem_cons]
      constructor
      · rintro ⟨hx, hs⟩; exact ⟨Or.inr hx, hs⟩
      · rintro ⟨hx | hx, hs⟩
        · exact absurd (hx ▸ ha) hs
        · exact ⟨hx, hs⟩
    · rw [jsDedupAux, if_neg ha]
      simp only [List.mem_cons, ih, List.mem_cons]
      constructor
      · rintro (rfl | ⟨hx, hs⟩)
        · exact ⟨Or.inl rfl, ha⟩
        · exact ⟨Or.inr hx, fun h => hs (Or.inr h)⟩
      · rintro ⟨rfl | hx, hs⟩
        · exact Or.inl rfl
        · by_cases hxa : x = a
          · exact Or.inl hxa
          · exact Or.inr ⟨hx, fun h => h.elim hxa hs⟩

theorem mem_jsDedup {x : String} {l : List String} : x ∈ jsDedup l ↔ x ∈ l := by
  simp [jsDedup, mem_jsDedupAux]

theorem jsDedupAux_eq_nil {seen l : List String} (h : ∀ x ∈ l, x ∈ seen) :
    jsDedupAux seen l = [] := by
  induction l with
  | nil => rfl
  | cons a l ih =>
    rw [jsDedupAux, if_pos (h a (List.mem_cons_self a l))]
    exact ih fun x hx => h x (List.mem_cons_of_mem a hx)

theorem jsDedupAux_append_subset {L : List String} :
    ∀ {seen l : List String}, (∀ x ∈ L, x ∈ seen ∨ x ∈ l) →
      jsDedupAux seen (l ++ L) = jsDedupAux seen l := by
  intro seen l
  induction l generalizing seen with
  | nil =>
    intro h
    simpa [jsDedupAux] using jsDedupAux_eq_nil fun x hx => (h x hx).resolve_right (by simp)
  | cons a l ih =>
    intro h
    by_cases ha : a ∈ seen
    · rw [List.cons_append, jsDedupAux, if_pos ha, jsDedupAux, if_pos ha]
      refine ih fun x hx => ?_
      rcases h x hx with hs | hm
      · exact Or.inl hs
      · rcases List.mem_cons.mp hm with rfl | hm
        · exact Or.inl ha
        · exact Or.inr hm
    · rw [List.cons_append, jsDedupAux, if_neg ha, jsDedupAux, if_neg ha]
      refine congrArg (a :: ·) (ih fun x hx => ?_)
      rcases h x hx with hs | hm
      · exact Or.inl (List.mem_cons_of_mem a hs)
      · rcases List.mem_cons.mp hm with rfl | hm
        · exact Or.inl (List.mem_cons_self x seen)
        · exact Or.inr hm

theorem jsDedup_append_subset {l L : List String} (h : ∀ x ∈ L, x ∈ l) :
    jsDedup (l ++ L) = jsDedup l :=
  jsDedupAux_append_subset fun x hx => Or.inr (h x hx)

theorem jsDedupAux_nodup {seen l : List String} : (jsDedupAux seen l).Nodup := by
  induction l generalizing seen with
  | nil => exact List.nodup_nil
  | cons a l ih =>
    by_cases ha : a ∈ seen
    · rw [jsDedupAux, if_pos ha]; exact ih
    · rw [jsDedupAux, if_neg ha]
      refine List.nodup_cons.mpr ⟨fun hmem => ?_, ih⟩
      exact (mem_jsDedupAux.mp hmem).2 (List.mem_cons_self a seen)

theorem jsDedup_nodup {l : List String} : (jsDedup l).Nodup :=
  jsDedupAux_nodup

theorem jsDedupAux_of_nodup {seen l : List String} (hnd : l.Nodup)
    (hdis : ∀ x ∈ l, x ∉ seen) : jsDedupAux seen l = l := by
  induction l generalizing seen with
  | nil => rfl
  | cons a l ih =>
    rw [jsDedupAux, if_neg (hdis a (List.mem_cons_self a l))]
    refine congrArg (a :: ·) (ih (List.nodup_cons.mp hnd).2 fun x hx => ?_)
    intro hmem
    rcases List.mem_cons.mp hmem with rfl | hmem
    · exact (List.nodup_cons.mp hnd).1 hx
    · exact hdis x (List.mem_cons_of_mem a hx) hmem

theorem jsDedup_of_nodup {l : List String} (hnd : l.Nodup) : jsDedup l = l :=
  jsDedupAux_of_nodup hnd (by simp)

theorem jsDedup_idem {l : List String} : jsDedup (jsDedup l) = jsDedup l :=
  jsDedup_of_nodup jsDedup_nodup

namespace Reward

/-- A document of the `User` Mongo collection, restricted to the fields the
reward ledger reads and writes (`src/utils/rewardTweetInteractions.js`). -/
structure UserDoc where
  discordId : String
  twitterId : String
  coins : Int
  totalLikes : Int
  totalRetweets : Int
deriving DecidableEq

/-- A document of the `Tweet` collection (`src/models/Tweet.js`), restricted
to the interaction-tracking arrays used by the reward ledger. -/
structure TweetDoc where
  likedUserIds : List String
  retweetedUserIds : List String
  rewardedForLikes : List String
  rewardedForRetweets : List String
deriving DecidableEq

/-- Result of one `rewardTweetInteractions` call: the updated tweet document,
the user collection after the per-user saves, and the returned counter. -/
structure RewardResult where
  tweet : TweetDoc
  users : List UserDoc
  newRewards : Nat
deriving DecidableEq

/-- The body of the `for (const userDoc of matchedUsers)` loop of
`rewardTweetInteractions` for a single user document: the two independent
guarded reward blocks, returning the updated tweet, the updated user and
the `rewardApplied` flag. -/
def processUser (newLikedIds newRetweetIds : List String) (tweet : TweetDoc)
    (u : UserDoc) : TweetDoc × UserDoc × Bool :=
  let likeHit := u.twitterId ∈ newLikedIds ∧ u.discordId ∉ tweet.rewardedForLikes
  let tweet1 := if likeHit then
    { tweet with rewardedForLikes := tweet.rewardedForLikes ++ [u.discordId] } else tweet
  let u1 := if likeHit then
    { u with coins := u.coins + 1, totalLikes := u.totalLikes + 1 } else u
  let rtHit := u.twitterId ∈ newRetweetIds ∧ u.discordId ∉ tweet1.rewardedForRetweets
  let tweet2 := if rtHit then
    { tweet1 with rewardedForRetweets := tweet1.rewardedForRetweets ++ [u.discordId] } else tweet1
  let u2 := if rtHit then
    { u1 with coins := u1.coins + 1, totalRetweets := u1.totalRetweets + 1 } else u1
  (tweet2, u2, decide likeHit || decide rtHit)

/-- The matched-users loop of `rewardTweetInteractions`.  `User.find
({ twitterId : { $in : allIds } })` returns the matching documents in
collection order, so the fold walks the whole collection and processes
exactly the documents whose `twitterId` lies in `allIds`; documents that
receive no reward are returned unchanged (their `save()` is skipped). -/
def rewardLoop (newLikedIds newRetweetIds allIds : List String) :
    TweetDoc → List UserDoc → RewardResult
  | tweet, [] => ⟨tweet, [], 0⟩
  | tweet, u :: us =>
    if u.twitterId ∈ allIds then
      let p := processUser newLikedIds newRetweetIds tweet u
      let rest := rewardLoop newLikedIds newRetweetIds allIds p.1 us
      ⟨rest.tweet, p.2.1 :: rest.users, rest.newRewards + (if p.2.2 then 1 else 0)⟩
    else
      let rest := rewardLoop newLikedIds newRetweetIds allIds tweet us
      ⟨rest.tweet, u :: rest.users, rest.newRewards⟩

/-- Lines 11-12 of `rewardTweetInteractions`: merge the newly observed IDs
into the tweet's stored arrays via `Array.from(new Set([...a, ...b]))`. -/
def mergeNewIds (tweet : TweetDoc) (newLikedIds newRetweetIds : List String) : TweetDoc :=
  { tweet with
    likedUserIds := jsDedup (tweet.likedUserIds ++ newLikedIds),
    retweetedUserIds := jsDedup (tweet.retweetedUserIds ++ newRetweetIds) }

/-- `rewardTweetInteractions(tweet, newLikedIds, newRetweetIds)` from
`src/utils/rewardTweetInteractions.js`, acting on the tweet document and the
user collection. -/
def rewardTweetInteractions (tweet : TweetDoc) (users : List UserDoc)
    (newLikedIds newRetweetIds : List String) : RewardResult :=
  let tweet1 := mergeNewIds tweet newLikedIds newRetweetIds
  let allIds := newLikedIds ++ newRetweetIds
  let r := rewardLoop newLikedIds newRetweetIds allIds tweet1 users
  ⟨{ r.tweet with
      rewardedForLikes := jsDedup r.tweet.rewardedForLikes,
      rewardedForRetweets := jsDedup r.tweet.rewardedForRetweets },
    r.users, r.newRewards⟩

/-- `checkMissingRewards()` from `src/checkMissingRewards.js`: iterates over
all tweets and calls `rewardTweetInteractions(tweet, [], [])` on each,
summing the returned counts. -/
def checkMissingRewards : List TweetDoc → List UserDoc →
    List TweetDoc × List UserDoc × Nat
  | [], users => ([], users, 0)
  | t :: ts, users =>
    let r := rewardTweetInteractions t users [] []
    let rest := checkMissingRewards ts r.users
    (r.tweet :: rest.1, rest.2.1, r.newRewards + rest.2.2)

end Reward

namespace Reward

theorem processUser_tweet_liked (L R : List String) (t : TweetDoc) (u : UserDoc) :
    (processUser L R t u).1.likedUserIds = t.likedUserIds ∧
    (processUser L R t u).1.retweetedUserIds = t.retweetedUserIds := by
  simp only [processUser]
  split_ifs <;> exact ⟨rfl, rfl⟩

theorem processUser_user_ids (L R : List String) (t : TweetDoc) (u : UserDoc) :
    (processUser L R t u).2.1.discordId = u.discordId ∧
    (processUser L R t u).2.1.twitterId = u.twitterId := by
  simp only [processUser]
  split_ifs <;> exact ⟨rfl, rfl⟩

theorem processUser_rewarded_mono (L R : List String) (t : TweetDoc) (u : UserDoc) :
    (∀ x ∈ t.rewardedForLikes, x ∈ (processUser L R t u).1.rewardedForLikes) ∧
    (∀ x ∈ t.rewardedForRetweets, x ∈ (processUser L R t u).1.rewardedForRetweets) := by
  simp only [processUser]
  split_ifs <;>
    refine ⟨fun x hx => ?_, fun x hx => ?_⟩ <;>
    first
      | exact hx
      | exact List.mem_append_left _ hx

theorem processUser_covers (L R : List String) (t : TweetDoc) (u : UserDoc) :
    (u.twitterId ∈ L → u.discordId ∈ (processUser L R t u).1.rewardedForLikes) ∧
    (u.twitterId ∈ R → u.discordId ∈ (processUser L R t u).1.rewardedForRetweets) := by
  simp only [processUser]
  split_ifs with h1 h2 h2
  · exact ⟨fun _ => by simp, fun _ => by simp⟩
  · refine ⟨fun _ => by simp, fun hR => ?_⟩
    have : u.discordId ∈ t.rewardedForRetweets := by
      by_contra hc
      exact h2 ⟨hR, hc⟩
    simpa using this
  · refine ⟨fun hL => ?_, fun _ => by simp⟩
    have : u.discordId ∈ t.rewardedForLikes := by
      by_contra hc
      exact h1 ⟨hL, hc⟩
    simpa using this
  · refine ⟨fun hL => ?_, fun hR => ?_⟩
    · by_contra hc
      exact h1 ⟨hL, hc⟩
    · by_contra hc
      exact h2 ⟨hR, hc⟩

theorem processUser_noop (L R : List String) (t : TweetDoc) (u : UserDoc)
    (h1 : u.twitterId ∈ L → u.discordId ∈ t.rewardedForLikes)
    (h2 : u.twitterId ∈ R → u.discordId ∈ t.rewardedForRetweets) :
    processUser L R t u = (t, u, false) := by
  have hl : ¬(u.twitterId ∈ L ∧ u.discordId ∉ t.rewardedForLikes) :=
    fun h => h.2 (h1 h.1)
  have hr : ¬(u.twitterId ∈ R ∧ u.discordId ∉ t.rewardedForRetweets) :=
    fun h => h.2 (h2 h.1)
  simp [processUser, hl, hr]

end Reward

namespace Reward

theorem rewardLoop_tweet_liked (L R A : List String) :
    ∀ (t : TweetDoc) (us : List UserDoc),
      (rewardLoop L R A t us).tweet.likedUserIds = t.likedUserIds ∧
      (rewardLoop L R A t us).tweet.retweetedUserIds = t.retweetedUserIds := by
  intro t us
  induction us generalizing t with
  | nil => exact ⟨rfl, rfl⟩
  | cons u us ih =>
    by_cases hA : u.twitterId ∈ A
    · simp only [rewardLoop, if_pos hA]
      refine ⟨?_, ?_⟩
      · exact (ih _).1.trans (processUser_tweet_liked L R t u).1
      · exact (ih _).2.trans (processUser_tweet_liked L R t u).2
    · simp only [rewardLoop, if_neg hA]
      exact ih t

theorem rewardLoop_rewarded_mono (L R A : List String) :
    ∀ (t : TweetDoc) (us : List UserDoc),
      (∀ x ∈ t.rewardedForLikes, x ∈ (rewardLoop L R A t us).tweet.rewardedForLikes) ∧
      (∀ x ∈ t.rewardedForRetweets, x ∈ (rewardLoop L R A t us).tweet.rewardedForRetweets) := by
  intro t us
  induction us generalizing t with
  | nil => exact ⟨fun x hx => hx, fun x hx => hx⟩
  | cons u us ih =>
    by_cases hA : u.twitterId ∈ A
    · simp only [rewardLoop, if_pos hA]
      refine ⟨fun x hx => ?_, fun x hx => ?_⟩
      · exact (ih _).1 x ((processUser_rewarded_mono L R t u).1 x hx)
      · exact (ih _).2 x ((processUser_rewarded_mono L R t u).2 x hx)
    · simp only [rewardLoop, if_neg hA]
      exact ih t

theorem rewardLoop_covers (L R A : List String)
    (hL : ∀ x ∈ L, x ∈ A) (hR : ∀ x ∈ R, x ∈ A) :
    ∀ (t : TweetDoc) (us : List UserDoc),
      ∀ u' ∈ (rewardLoop L R A t us).users,
        (u'.twitterId ∈ L → u'.discordId ∈ (rewardLoop L R A t us).tweet.rewardedForLikes) ∧
        (u'.twitterId ∈ R → u'.discordId ∈ (rewardLoop L R A t us).tweet.rewardedForRetweets) := by
  intro t us
  induction us generalizing t with
  | nil => intro u' h; exact absurd h (List.not_mem_nil u')
  | cons u us ih =>
    by_cases hA : u.twitterId ∈ A
    · simp only [rewardLoop, if_pos hA]
      intro u' hu'
      rcases List.mem_cons.mp hu' with rfl | hu'
      · have hids := processUser_user_ids L R t u
        have hcov := processUser_covers L R t u
        have hmono := rewardLoop_rewarded_mono L R A
          (processUser L R t u).1 us
        refine ⟨fun hmem => ?_, fun hmem => ?_⟩
        · rw [hids.1]
          exact (hmono).1 _ (hcov.1 (hids.2 ▸ hmem))
        · rw [hids.1]
          exact (hmono).2 _ (hcov.2 (hids.2 ▸ hmem))
      · exact ih _ u' hu'
    · simp only [rewardLoop, if_neg hA]
      intro u' hu'
      rcases List.mem_cons.mp hu' with rfl | hu'
      · refine ⟨fun hmem => absurd (hL _ hmem) hA, fun hmem => absurd (hR _ hmem) hA⟩
      · exact ih t u' hu'

theorem rewardLoop_noop (L R A : List String) :
    ∀ (t : TweetDoc) (us : List UserDoc),
      (∀ u ∈ us,
        (u.twitterId ∈ L → u.discordId ∈ t.rewardedForLikes) ∧
        (u.twitterId ∈ R → u.discordId ∈ t.rewardedForRetweets)) →
      rewardLoop L R A t us = ⟨t, us, 0⟩ := by
  intro t us
  induction us generalizing t with
  | nil => intro _; rfl
  | cons u us ih =>
    intro h
    have hu := h u (List.mem_cons_self u us)
    have hrest : ∀ v ∈ us,
        (v.twitterId ∈ L → v.discordId ∈ t.rewardedForLikes) ∧
        (v.twitterId ∈ R → v.discordId ∈ t.rewardedForRetweets) :=
      fun v hv => h v (List.mem_cons_of_mem u hv)
    by_cases hA : u.twitterId ∈ A
    · simp only [rewardLoop, if_pos hA, processUser_noop L R t u hu.1 hu.2, ih t hrest]
      rfl
    · simp only [rewardLoop, if_neg hA, ih t hrest]

end Reward

namespace Reward

theorem rewardTweetInteractions_noop (t : TweetDoc) (us : List UserDoc) (L R : List String)
    (hndRwL : t.rewardedForLikes.Nodup) (hndRwR : t.rewardedForRetweets.Nodup)
    (hndLiked : t.likedUserIds.Nodup) (hndRt : t.retweetedUserIds.Nodup)
    (hsubL : ∀ x ∈ L, x ∈ t.likedUserIds) (hsubR : ∀ x ∈ R, x ∈ t.retweetedUserIds)
    (hcov : ∀ u ∈ us,
      (u.twitterId ∈ L → u.discordId ∈ t.rewardedForLikes) ∧
      (u.twitterId ∈ R → u.discordId ∈ t.rewardedForRetweets)) :
    rewardTweetInteractions t us L R = ⟨t, us, 0⟩ := by
  have h1 : jsDedup (t.likedUserIds ++ L) = t.likedUserIds := by
    rw [jsDedup_append_subset hsubL]
    exact jsDedup_of_nodup hndLiked
  have h2 : jsDedup (t.retweetedUserIds ++ R) = t.retweetedUserIds := by
    rw [jsDedup_append_subset hsubR]
    exact jsDedup_of_nodup hndRt
  show (⟨{ (rewardLoop L R (L ++ R) (mergeNewIds t L R) us).tweet with
      rewardedForLikes :=
        jsDedup (rewardLoop L R (L ++ R) (mergeNewIds t L R) us).tweet.rewardedForLikes,
      rewardedForRetweets :=
        jsDedup (rewardLoop L R (L ++ R) (mergeNewIds t L R) us).tweet.rewardedForRetweets },
    (rewardLoop L R (L ++ R) (mergeNewIds t L R) us).users,
    (rewardLoop L R (L ++ R) (mergeNewIds t L R) us).newRewards⟩ : RewardResult)
    = ⟨t, us, 0⟩
  have hmerge : mergeNewIds t L R = t := by
    unfold mergeNewIds
    rw [h1, h2]
  rw [hmerge, rewardLoop_noop L R (L ++ R) t us hcov]
  show (⟨{ t with
      rewardedForLikes := jsDedup t.rewardedForLikes,
      rewardedForRetweets := jsDedup t.rewardedForRetweets }, us, 0⟩ : RewardResult)
    = ⟨t, us, 0⟩
  rw [jsDedup_of_nodup hndRwL, jsDedup_of_nodup hndRwR]

theorem rewardTweetInteractions_output (tweet : TweetDoc) (users : List UserDoc)
    (L R : List String) :
    (rewardTweetInteractions tweet users L R).tweet.likedUserIds
        = jsDedup (tweet.likedUserIds ++ L) ∧
    (rewardTweetInteractions tweet users L R).tweet.retweetedUserIds
        = jsDedup (tweet.retweetedUserIds ++ R) ∧
    (rewardTweetInteractions tweet users L R).tweet.rewardedForLikes.Nodup ∧
    (rewardTweetInteractions tweet users L R).tweet.rewardedForRetweets.Nodup ∧
    ∀ u ∈ (rewardTweetInteractions tweet users L R).users,
      (u.twitterId ∈ L →
        u.discordId ∈ (rewardTweetInteractions tweet users L R).tweet.rewardedForLikes) ∧
      (u.twitterId ∈ R →
        u.discordId ∈ (rewardTweetInteractions tweet users L R).tweet.rewardedForRetweets) := by
  refine ⟨?_, ?_, jsDedup_nodup, jsDedup_nodup, ?_⟩
  · exact (rewardLoop_tweet_liked L R (L ++ R) _ users).1
  · exact (rewardLoop_tweet_liked L R (L ++ R) _ users).2
  · intro u hu
    have hc := rewardLoop_covers L R (L ++ R)
      (fun x hx => List.mem_append_left _ hx) (fun x hx => List.mem_append_right _ hx)
      (mergeNewIds tweet L R) users u hu
    exact ⟨fun hm => mem_jsDedup.mpr (hc.1 hm), fun hm => mem_jsDedup.mpr (hc.2 hm)⟩

/-- C1: running `rewardTweetInteractions` a second time with the same
`newLikedIds` and `newRetweetIds` on the tweet and user states left by the
first run grants nothing: the second run returns 0 and leaves the tweet's
four ID arrays and every user's coins and counters unchanged. -/
theorem rewardTweetInteractions_idempotent (tweet : TweetDoc) (users : List UserDoc)
    (newLikedIds newRetweetIds : List String) :
    rewardTweetInteractions
        (rewardTweetInteractions tweet users newLikedIds newRetweetIds).tweet
        (rewardTweetInteractions tweet users newLikedIds newRetweetIds).users
        newLikedIds newRetweetIds =
      ⟨(rewardTweetInteractions tweet users newLikedIds newRetweetIds).tweet,
        (rewardTweetInteractions tweet users newLikedIds newRetweetIds).users, 0⟩ := by
  obtain ⟨h1, h2, h3, h4, h5⟩ :=
    rewardTweetInteractions_output tweet users newLikedIds newRetweetIds
  refine rewardTweetInteractions_noop _ _ _ _ h3 h4 ?_ ?_ ?_ ?_ h5
  · rw [h1]; exact jsDedup_nodup
  · rw [h2]; exact jsDedup_nodup
  · intro x hx
    rw [h1]
    exact mem_jsDedup.mpr (List.mem_append_right _ hx)
  · intro x hx
    rw [h2]
    exact mem_jsDedup.mpr (List.mem_append_right _ hx)

end Reward

namespace Reward

theorem rewardTweetInteractions_emptyNew (t : TweetDoc) (us : List UserDoc) :
    rewardTweetInteractions t us [] [] =
      ⟨{ t with
          likedUserIds := jsDedup t.likedUserIds,
          retweetedUserIds := jsDedup t.retweetedUserIds,
          rewardedForLikes := jsDedup t.rewardedForLikes,
          rewardedForRetweets := jsDedup t.rewardedForRetweets }, us, 0⟩ := by
  show (⟨{ (rewardLoop [] [] ([] ++ []) (mergeNewIds t [] []) us).tweet with
      rewardedForLikes :=
        jsDedup (rewardLoop [] [] ([] ++ []) (mergeNewIds t [] []) us).tweet.rewardedForLikes,
      rewardedForRetweets :=
        jsDedup (rewardLoop [] [] ([] ++ []) (mergeNewIds t [] []) us).tweet.rewardedForRetweets },
    (rewardLoop [] [] ([] ++ []) (mergeNewIds t [] []) us).users,
    (rewardLoop [] [] ([] ++ []) (mergeNewIds t [] []) us).newRewards⟩ : RewardResult) = _
  rw [rewardLoop_noop [] [] ([] ++ []) (mergeNewIds t [] []) us
    (fun u _ => ⟨fun h => absurd h (List.not_mem_nil _),
                 fun h => absurd h (List.not_mem_nil _)⟩)]
  show (⟨{ mergeNewIds t [] [] with
      rewardedForLikes := jsDedup (mergeNewIds t [] []).rewardedForLikes,
      rewardedForRetweets := jsDedup (mergeNewIds t [] []).rewardedForRetweets },
    us, 0⟩ : RewardResult) = _
  have hm : mergeNewIds t [] [] = { t with
      likedUserIds := jsDedup t.likedUserIds,
      retweetedUserIds := jsDedup t.retweetedUserIds } := by
    unfold mergeNewIds
    rw [List.append_nil, List.append_nil]
  rw [hm]

/-- C2 (code bug): the backfill pass `checkMissingRewards` passes empty
`newLikedIds`/`newRetweetIds` to `rewardTweetInteractions`, whose user query
and guards test only the new-ID lists, so on a tweet whose `likedUserIds`
contains `A1` — linked to local user `U1` not yet in `rewardedForLikes` — it
grants nothing: zero rewards, user unchanged, `U1` never appended. -/
theorem checkMissingRewards_backfills_nothing :
    checkMissingRewards [⟨["A1"], [], [], []⟩] [⟨"U1", "A1", 0, 0, 0⟩] =
      ([⟨["A1"], [], [], []⟩], [⟨"U1", "A1", 0, 0, 0⟩], 0) := by
  decide

/-- C8 (counterexample): a single pass that grants both the like and the
repost reward to the same user applies two coin increments and two counter
increments (coins 0 to 2) but returns 1, not 2: the returned value counts
rewarded users, not reward events. -/
theorem rewardCount_like_and_retweet_counterexample :
    (rewardTweetInteractions ⟨[], [], [], []⟩
        [⟨"U1", "A1", 0, 0, 0⟩] ["A1"] ["A1"]).newRewards = 1 ∧
    (rewardTweetInteractions ⟨[], [], [], []⟩
        [⟨"U1", "A1", 0, 0, 0⟩] ["A1"] ["A1"]).users = [⟨"U1", "A1", 2, 1, 1⟩] := by
  constructor
  · decide
  · decide

theorem processUser_flag (L R : List String) (t : TweetDoc) (u : UserDoc) :
    (processUser L R t u).2.2 = true ↔ (processUser L R t u).2.1 ≠ u := by
  simp only [processUser]
  split_ifs with h1 h2 h2
  · simp only [Bool.or_eq_true, decide_eq_true_eq]
    refine ⟨fun _ h => ?_, fun _ => Or.inl h1⟩
    have := congrArg UserDoc.coins h
    simp at this
    omega
  · simp only [Bool.or_eq_true, decide_eq_true_eq]
    refine ⟨fun _ h => ?_, fun _ => Or.inl h1⟩
    have := congrArg UserDoc.coins h
    simp at this
  · simp only [Bool.or_eq_true, decide_eq_true_eq]
    refine ⟨fun _ h => ?_, fun _ => Or.inr h2⟩
    have := congrArg UserDoc.coins h
    simp at this
  · simp [h1, h2]

theorem rewardLoop_count (L R A : List String) :
    ∀ (t : TweetDoc) (us : List UserDoc),
      (rewardLoop L R A t us).newRewards =
        ((rewardLoop L R A t us).users.zip us).countP (fun p => decide (p.1 ≠ p.2)) := by
  intro t us
  induction us generalizing t with
  | nil => rfl
  | cons u us ih =>
    by_cases hA : u.twitterId ∈ A
    · simp only [rewardLoop, if_pos hA, List.zip_cons_cons, List.countP_cons]
      rw [ih]
      congr 1
      by_cases hflag : (processUser L R t u).2.2 = true
      · rw [if_pos hflag, if_pos]
        simpa using (processUser_flag L R t u).mp hflag
      · rw [if_neg hflag, if_neg]
        simp only [decide_eq_true_eq]
        intro hne
        exact hflag ((processUser_flag L R t u).mpr hne)
    · simp only [rewardLoop, if_neg hA, List.zip_cons_cons, List.countP_cons]
      rw [ih]
      simp

/-- C8 (amended): the value returned by `rewardTweetInteractions` equals the
number of user documents changed by the call — i.e. the number of distinct
users granted at least one new reward; a user granted both a like and a
repost reward in the same pass receives two coin/counter increments but
contributes one to the returned value. -/
theorem rewardTweetInteractions_counts_users (tweet : TweetDoc) (users : List UserDoc)
    (newLikedIds newRetweetIds : List String) :
    (rewardTweetInteractions tweet users newLikedIds newRetweetIds).newRewards =
      (((rewardTweetInteractions tweet users newLikedIds newRetweetIds).users.zip
          users).countP (fun p => decide (p.1 ≠ p.2))) :=
  rewardLoop_count newLikedIds newRetweetIds (newLikedIds ++ newRetweetIds)
    (mergeNewIds tweet newLikedIds newRetweetIds) users

end Reward

namespace TwClient

/-- One entry of the rate-limit table in `src/config/twitterRateLimits.js`. -/
structure RateLimitConfig where
  limit : Nat
  windowMinutes : Nat
  description : String
deriving DecidableEq

/-- The `rateLimits` object of `src/config/twitterRateLimits.js`, in
declaration order (JavaScript object keys keep insertion order). -/
def rateLimits : List (String × RateLimitConfig) :=
  [("/2/users/by", ⟨1, 1440, "User lookup by username, ID, etc."⟩),
   ("/2/users/by/username", ⟨3, 15, "User lookup by username"⟩),
   ("/2/users", ⟨1, 1440, "User lookup by ID"⟩),
   ("/2/users/:id/tweets", ⟨1, 15, "Get tweets from a user"⟩),
   ("/2/tweets", ⟨1, 15, "Tweet lookup"⟩),
   ("/2/tweets/:id/liking_users", ⟨1, 15, "Get users who liked a tweet"⟩),
   ("/2/tweets/:id/retweeted_by", ⟨1, 15, "Get users who retweeted a tweet"⟩),
   ("/2/users/:id/timelines/reverse_chronological", ⟨1, 15, "User home timeline"⟩),
   ("default", ⟨1, 15, "Default fallback for unlisted endpoints"⟩)]

/-- Key lookup in a JavaScript-object-like association list. -/
def lookupKey {α : Type} : List (String × α) → String → Option α
  | [], _ => none
  | (k, v) :: rest, key => if k = key then some v else lookupKey rest key

def isParamChar (c : Char) : Bool :=
  c.isAlphanum || c = '_'

/-- Split a character list at every occurrence of the separator, the
behaviour of `String.split` on a single-character separator
(the empty string yields one empty segment). -/
def splitChar (sep : Char) : List Char → List (List Char)
  | [] => [[]]
  | c :: cs =>
    let r := splitChar sep cs
    if c = sep then [] :: r
    else
      match r with
      | [] => [[c]]
      | h :: t => (c :: h) :: t

/-- Whether a path segment is entirely a `:name` parameter — the part of the
pattern that `getRateLimit` rewrites to the regex `[^/]+`.  In the
`rateLimits` table every parameter occurrence is a whole segment, so the
anchored regex test is equivalent to segment-wise matching. -/
def isParamSeg (s : List Char) : Bool :=
  match s with
  | c :: rest => c = ':' && !rest.isEmpty && rest.all isParamChar
  | [] => false

/-- The anchored regex test built by `getRateLimit`:
`pattern.replace(/:[a-zA-Z0-9_]+/g, "[^/]+")` matched against the whole
endpoint, realised segment-wise (`[^/]+` matches one non-empty segment). -/
def patternTest (pattern endpoint : String) : Bool :=
  let ps := splitChar '/' pattern.toList
  let es := splitChar '/' endpoint.toList
  ps.length = es.length &&
    (ps.zip es).all fun pe =>
      if isParamSeg pe.1 then !pe.2.isEmpty else pe.1 = pe.2

/-- `getRateLimit(endpoint)` from `src/config/twitterRateLimits.js`: exact
key match first, then the first matching `:param` pattern (skipping the
`default` key), then the `default` fallback. -/
def getRateLimit (endpoint : String) : RateLimitConfig :=
  match lookupKey rateLimits endpoint with
  | some c => c
  | none =>
    match rateLimits.find? (fun p => p.1 ≠ "default" && patternTest p.1 endpoint) with
    | some p => p.2
    | none => ⟨1, 15, "Default fallback for unlisted endpoints"⟩

/-- The mutable rate-limiting state of the `TwitterClient` singleton:
`this.requestCounts` (a plain object, one counter per endpoint pathname) and
the single shared `this.lastReset` timestamp in milliseconds. -/
structure ClientState where
  requestCounts : List (String × Nat)
  lastReset : Nat
deriving DecidableEq

/-- `this.requestCounts[endpoint] = (this.requestCounts[endpoint] || 0) + 1`. -/
def bumpCount : List (String × Nat) → String → List (String × Nat)
  | [], e => [(e, 1)]
  | (k, v) :: rest, e =>
    if k = e then (k, v + 1) :: rest else (k, v) :: bumpCount rest e

/-- `this.requestCounts[endpoint] || 0`. -/
def getCount (counts : List (String × Nat)) (e : String) : Nat :=
  (lookupKey counts e).getD 0

/-- The object returned by `TwitterClient.checkRateLimit`. -/
structure RateLimitStatus where
  isLimited : Bool
  currentCount : Nat
  limit : Nat
  resetTime : Nat
  waitTimeMs : Nat
  endpoint : String
  description : String
deriving DecidableEq

/-- `TwitterClient.checkRateLimit(endpoint)` from `src/utils/twitterClient.js`
(lines 67-101), at clock value `now`.  Note that it mutates: the whole
`requestCounts` object is discarded when `now - lastReset` exceeds the
*current* endpoint's window, and the endpoint's counter is always
incremented before the limit comparison. -/
def checkRateLimit (now : Nat) (st : ClientState) (endpoint : String) :
    RateLimitStatus × ClientState :=
  let rateLimit := getRateLimit endpoint
  let windowMs := rateLimit.windowMinutes * 60 * 1000
  let st1 : ClientState :=
    if now - st.lastReset > windowMs then ⟨[], now⟩ else st
  let counts := bumpCount st1.requestCounts endpoint
  let currentCount := getCount counts endpoint
  let isLimited := currentCount > rateLimit.limit
  let resetTime := st1.lastReset + windowMs
  let waitTimeMs := resetTime - now
  (⟨isLimited, currentCount, rateLimit.limit, resetTime, waitTimeMs,
      endpoint, rateLimit.description⟩,
    ⟨counts, st1.lastReset⟩)

/-- One entry of the `node-cache` instance behind `cacheManager.js`:
key, value and absolute expiry time in milliseconds. -/
structure CacheEntry (V : Type) where
  key : String
  value : V
  expiresAt : Nat
deriving DecidableEq

def Cache (V : Type) : Type := List (CacheEntry V)

/-- `defaultCache.get(key)` at clock `now`: `undefined` (modelled `none`)
when the key is absent or its TTL has elapsed. -/
def cacheGet {V : Type} (now : Nat) (c : Cache V) (key : String) : Option V :=
  match c.find? (fun e => e.key = key) with
  | some e => if now < e.expiresAt then some e.value else none
  | none => none

/-- `defaultCache.set(key, value, ttlSeconds)` at clock `now`: replaces an
existing entry for the key or appends a fresh one. -/
def cacheSet {V : Type} (now : Nat) : Cache V → String → V → Nat → Cache V
  | [], key, v, ttl => [⟨key, v, now + ttl * 1000⟩]
  | e :: rest, key, v, ttl =>
    if e.key = key then ⟨key, v, now + ttl * 1000⟩ :: rest
    else e :: cacheSet now rest key v ttl

/-- Drop everything up to and including the first `://` of a URL. -/
def dropScheme : List Char → Option (List Char)
  | ':' :: '/' :: '/' :: rest => some rest
  | _ :: cs => dropScheme cs
  | [] => none

/-- `new URL(url).pathname` for the plain `https://host/path` URLs this
client builds (no port, query string or fragment): the suffix starting at
the first `/` after the host, or `/` when there is none. -/
def urlPathname (url : String) : String :=
  match dropScheme url.toList with
  | some rest =>
    match rest.dropWhile (fun c => c ≠ '/') with
    | [] => "/"
    | path => String.mk path
  | none => url

/-- The data carried by the rate-limit `Error` thrown by
`TwitterClient.get` (endpoint, used count, limit). -/
structure RateLimitError where
  endpoint : String
  currentCount : Nat
  limit : Nat
deriving DecidableEq

/-- The observable outcome of one `TwitterClient.get` call: the returned
data or thrown rate-limit error, the client state, the cache state, and
whether the network request was performed. -/
structure GetOutcome (V : Type) where
  result : Except RateLimitError V
  state : ClientState
  cache : Cache V
  networkCalled : Bool

/-- `TwitterClient.get(url, params, options)` from
`src/utils/twitterClient.js` (lines 110-172) at clock `now`.  `params` is
the already-JSON-stringified query object (the cache key uses
`JSON.stringify(params)`); `net` is the datum the network would return
(the axios call is modelled as succeeding); `useCache` is
`options.useCache !== false`, `bypassRateLimit` is `options.bypassRateLimit`
and `cacheTTL` is `options.cacheTTL || 300`. -/
def get {V : Type} (now : Nat) (net : V) (st : ClientState) (cache : Cache V)
    (url params : String) (useCache bypassRateLimit : Bool) (cacheTTL : Nat) :
    GetOutcome V :=
  let pathname := urlPathname url
  let rls := (checkRateLimit now st pathname).1
  let st1 := (checkRateLimit now st pathname).2
  if rls.isLimited && !bypassRateLimit then
    ⟨Except.error ⟨pathname, rls.currentCount, rls.limit⟩, st1, cache, false⟩
  else
    let cacheKey := "twitter:" ++ url ++ ":" ++ params
    match (if useCache then cacheGet now cache cacheKey else none) with
    | some v => ⟨Except.ok v, st1, cache, false⟩
    | none =>
      let cache1 := if useCache then cacheSet now cache cacheKey net cacheTTL else cache
      ⟨Except.ok net, st1, cache1, true⟩

/-- `TwitterClient.resetRateLimitCounters()` (lines 352-356). -/
def resetRateLimitCounters (now : Nat) (_st : ClientState) : ClientState :=
  ⟨[], now⟩

/-- `TwitterClient.getRateLimitStatus(endpoint)` (lines 309-311): it simply
delegates to `checkRateLimit`, state change included. -/
def getRateLimitStatus (now : Nat) (st : ClientState) (endpoint : String) :
    RateLimitStatus × ClientState :=
  checkRateLimit now st endpoint

/-- `TwitterClient.getAllRateLimitStatuses()` (lines 317-327): maps
`checkRateLimit` over the snapshot of `Object.keys(this.requestCounts)`,
threading the mutated state; the derived `remainingRequests` and
`resetInMinutes` decorations are pure functions of each returned status and
are omitted. -/
def getAllRateLimitStatuses (now : Nat) (st : ClientState) :
    List RateLimitStatus × ClientState :=
  let keys := st.requestCounts.map Prod.fst
  keys.foldl
    (fun acc e =>
      let r := checkRateLimit now acc.2 e
      (acc.1 ++ [r.1], r.2))
    ([], st)

end TwClient

namespace TwClient

theorem getCount_bumpCount_self (c : List (String × Nat)) (e : String) :
    getCount (bumpCount c e) e = getCount c e + 1 := by
  induction c with
  | nil => simp [bumpCount, getCount, lookupKey]
  | cons p rest ih =>
    obtain ⟨k, v⟩ := p
    by_cases hk : k = e
    · subst hk
      simp [bumpCount, getCount, lookupKey]
    · simp only [bumpCount, if_neg hk, getCount, lookupKey]
      exact ih

theorem getCount_bumpCount_ne (c : List (String × Nat)) (e e2 : String) (h : e ≠ e2) :
    getCount (bumpCount c e2) e = getCount c e := by
  induction c with
  | nil => simp [bumpCount, getCount, lookupKey, Ne.symm h]
  | cons p rest ih =>
    obtain ⟨k, v⟩ := p
    by_cases hk : k = e2
    · subst hk
      simp [bumpCount, getCount, lookupKey, Ne.symm h]
    · simp only [bumpCount, if_neg hk, getCount, lookupKey]
      by_cases he : k = e
      · rw [if_pos he, if_pos he]
      · rw [if_neg he, if_neg he]
        exact ih
      

theorem checkRateLimit_not_expired (now : Nat) (st : ClientState) (e : String)
    (h : now - st.lastReset ≤ (getRateLimit e).windowMinutes * 60 * 1000) :
    checkRateLimit now st e =
      (⟨decide (getCount st.requestCounts e + 1 > (getRateLimit e).limit),
          getCount st.requestCounts e + 1, (getRateLimit e).limit,
          st.lastReset + (getRateLimit e).windowMinutes * 60 * 1000,
          st.lastReset + (getRateLimit e).windowMinutes * 60 * 1000 - now,
          e, (getRateLimit e).description⟩,
        ⟨bumpCount st.requestCounts e, st.lastReset⟩) := by
  simp only [checkRateLimit]
  rw [if_neg (by omega :
    ¬ now - st.lastReset > (getRateLimit e).windowMinutes * 60 * 1000)]
  rw [getCount_bumpCount_self]

/-- C5 (counterexample): the stored count for `/2/users/by` (window 1440
minutes) is zeroed at t = 16 min by a call on `/2/tweets` (window 15
minutes), although `/2/users/by`'s own window is far from expired — window
state is shared across endpoints, not per endpoint. -/
theorem window_shared_counterexample :
    (checkRateLimit 960000 ⟨[("/2/users/by", 1)], 0⟩ "/2/tweets").2.requestCounts
        = [("/2/tweets", 1)] ∧
    960000 - 0 ≤ (getRateLimit "/2/users/by").windowMinutes * 60 * 1000 := by
  exact ⟨by decide, by decide⟩

/-- C5 (amended): window state is shared, not per endpoint.  `checkRateLimit`
keeps a single `lastReset` timestamp; a call on endpoint `e2` whose
configured window length is exceeded by `now - lastReset` clears the counts
of ALL endpoints (every other endpoint's count drops to 0, whatever its own
window length), and otherwise every endpoint's count is preserved, with the
called endpoint's count incremented by one; no count is ever decremented
within a shared window. -/
theorem checkRateLimit_window_shared (now : Nat) (st : ClientState) (e e2 : String) :
    getCount (checkRateLimit now st e2).2.requestCounts e =
      (if now - st.lastReset > (getRateLimit e2).windowMinutes * 60 * 1000 then 0
       else getCount st.requestCounts e) + (if e = e2 then 1 else 0) ∧
    (checkRateLimit now st e2).2.lastReset =
      (if now - st.lastReset > (getRateLimit e2).windowMinutes * 60 * 1000 then now
       else st.lastReset) := by
  by_cases hw : now - st.lastReset > (getRateLimit e2).windowMinutes * 60 * 1000
  · constructor
    · show getCount (bumpCount (if now - st.lastReset > _ then
        (⟨[], now⟩ : ClientState) else st).requestCounts e2) e = _
      rw [if_pos hw, if_pos hw]
      by_cases he : e = e2
      · subst he
        rw [if_pos rfl, getCount_bumpCount_self]
        rfl
      · rw [if_neg he, getCount_bumpCount_ne _ _ _ he]
        rfl
    · show (if now - st.lastReset > _ then (⟨[], now⟩ : ClientState) else st).lastReset = _
      rw [if_pos hw, if_pos hw]
  · constructor
    · show getCount (bumpCount (if now - st.lastReset > _ then
        (⟨[], now⟩ : ClientState) else st).requestCounts e2) e = _
      rw [if_neg hw, if_neg hw]
      by_cases he : e = e2
      · subst he
        rw [if_pos rfl, getCount_bumpCount_self]
      · rw [if_neg he, getCount_bumpCount_ne _ _ _ he]
        rfl
    · show (if now - st.lastReset > _ then (⟨[], now⟩ : ClientState) else st).lastReset = _
      rw [if_neg hw, if_neg hw]

end TwClient

namespace TwClient

/-- C9 (counterexample): `getRateLimitStatus` is not read-only: on a state
tracking one request for `/2/tweets`, a single status inspection of that
endpoint raises its stored count from 1 to 2 — introspection consumes
quota. -/
theorem getRateLimitStatus_counterexample :
    (getRateLimitStatus 0 ⟨[("/2/tweets", 1)], 0⟩ "/2/tweets").2.requestCounts
        = [("/2/tweets", 2)] ∧
    (getRateLimitStatus 0 ⟨[("/2/tweets", 1)], 0⟩ "/2/tweets").2.requestCounts
        ≠ [("/2/tweets", 1)] := by
  exact ⟨by decide, by decide⟩

theorem foldl_bumpCount_cons_ne (ks : List String) :
    ∀ (c : List (String × Nat)) (k : String) (v : Nat), k ∉ ks →
      List.foldl bumpCount ((k, v) :: c) ks = (k, v) :: List.foldl bumpCount c ks := by
  induction ks with
  | nil => intro c k v _; rfl
  | cons k1 ks ih =>
    intro c k v hk
    have hne : ¬ k = k1 := fun h => hk (h ▸ List.mem_cons_self k1 ks)
    show List.foldl bumpCount (bumpCount ((k, v) :: c) k1) ks = _
    rw [show bumpCount ((k, v) :: c) k1 = (k, v) :: bumpCount c k1 by
      simp [bumpCount, hne]]
    exact ih (bumpCount c k1) k v fun h => hk (List.mem_cons_of_mem k1 h)

theorem foldl_bumpCount_all (c : List (String × Nat))
    (hnd : (c.map Prod.fst).Nodup) :
    List.foldl bumpCount c (c.map Prod.fst) = c.map (fun p => (p.1, p.2 + 1)) := by
  induction c with
  | nil => rfl
  | cons p rest ih =>
    obtain ⟨k, v⟩ := p
    simp only [List.map_cons] at hnd ⊢
    have hk : k ∉ rest.map Prod.fst := (List.nodup_cons.mp hnd).1
    show List.foldl bumpCount (bumpCount ((k, v) :: rest) k) (rest.map Prod.fst) = _
    rw [show bumpCount ((k, v) :: rest) k = (k, v + 1) :: rest by simp [bumpCount]]
    rw [foldl_bumpCount_cons_ne _ _ _ _ hk]
    rw [ih (List.nodup_cons.mp hnd).2]

theorem foldl_checkRateLimit (now : Nat) :
    ∀ (ks : List String) (rs : List RateLimitStatus) (c : List (String × Nat)) (t : Nat),
      (∀ k ∈ ks, now - t ≤ (getRateLimit k).windowMinutes * 60 * 1000) →
      (List.foldl
          (fun acc e =>
            let r := checkRateLimit now acc.2 e
            (acc.1 ++ [r.1], r.2))
          (rs, (⟨c, t⟩ : ClientState)) ks).2
        = ⟨List.foldl bumpCount c ks, t⟩ := by
  intro ks
  induction ks with
  | nil => intro rs c t _; rfl
  | cons k ks ih =>
    intro rs c t hwin
    have hk := hwin k (List.mem_cons_self k ks)
    show (List.foldl _ (rs ++ [(checkRateLimit now ⟨c, t⟩ k).1],
        (checkRateLimit now ⟨c, t⟩ k).2) ks).2 = _
    rw [checkRateLimit_not_expired now ⟨c, t⟩ k hk]
    exact ih _ (bumpCount c k) t fun k2 h2 => hwin k2 (List.mem_cons_of_mem k h2)

/-- C9 (amended): rate-limit introspection mutates the counters.
`getRateLimitStatus(e)` delegates to `checkRateLimit`, so within the current
window it increments `e`'s request count by one (leaving the window start
unchanged), and `getAllRateLimitStatuses()` runs `checkRateLimit` on every
tracked endpoint, incrementing each tracked endpoint's count by one —
introspection consumes quota rather than being read-only. -/
theorem getStatus_increments (now : Nat) (st : ClientState) (e : String)
    (h : now - st.lastReset ≤ (getRateLimit e).windowMinutes * 60 * 1000)
    (hall : ∀ p ∈ st.requestCounts,
      now - st.lastReset ≤ (getRateLimit p.1).windowMinutes * 60 * 1000)
    (hnd : (st.requestCounts.map Prod.fst).Nodup) :
    (getRateLimitStatus now st e).2
        = ⟨bumpCount st.requestCounts e, st.lastReset⟩ ∧
    (getAllRateLimitStatuses now st).2
        = ⟨st.requestCounts.map (fun p => (p.1, p.2 + 1)), st.lastReset⟩ := by
  constructor
  · rw [getRateLimitStatus, checkRateLimit_not_expired now st e h]
  · show (List.foldl _ ([], st) (st.requestCounts.map Prod.fst)).2 = _
    obtain ⟨c, t⟩ := st
    rw [foldl_checkRateLimit now (c.map Prod.fst) [] c t
      (fun k hk => by
        obtain ⟨p, hp, rfl⟩ := List.mem_map.mp hk
        exact hall p hp)]
    rw [foldl_bumpCount_all c hnd]

/-- Witness for the amended C9 theorem at a concrete two-endpoint state. -/
theorem getStatus_increments_witness :
    (getRateLimitStatus 7 ⟨[("/2/tweets", 2), ("/2/users/by", 1)], 5⟩
        "/2/users/by/username").2
      = ⟨[("/2/tweets", 2), ("/2/users/by", 1), ("/2/users/by/username", 1)], 5⟩ ∧
    (getAllRateLimitStatuses 7 ⟨[("/2/tweets", 2), ("/2/users/by", 1)], 5⟩).2
      = ⟨[("/2/tweets", 3), ("/2/users/by", 2)], 5⟩ := by
  have h := getStatus_increments 7 ⟨[("/2/tweets", 2), ("/2/users/by", 1)], 5⟩
    "/2/users/by/username" (by decide) (by decide) (by decide)
  exact ⟨h.1.trans (by decide), h.2.trans (by decide)⟩

end TwClient

namespace TwClient

/-- C3 (counterexample): endpoint `/2/tweets` has limit 1.  The first `get`
succeeds and stores its response in the cache; the second `get` with the
identical URL and params one second later — well within both the 300 s TTL
and the 15-minute window — does not return the cached value: `get` runs
`checkRateLimit` before the cache lookup, so the counter is incremented to 2
and the call throws the rate-limit error despite the cache hit. -/
theorem get_cacheHit_counterexample :
    (TwClient.get 0 (37 : Nat) ⟨[], 0⟩ []
        "https://api.twitter.com/2/tweets" "p1" true false 300).result
      = Except.ok 37 ∧
    (TwClient.get 1000 (37 : Nat)
        (TwClient.get 0 (37 : Nat) ⟨[], 0⟩ []
          "https://api.twitter.com/2/tweets" "p1" true false 300).state
        (TwClient.get 0 (37 : Nat) ⟨[], 0⟩ []
          "https://api.twitter.com/2/tweets" "p1" true false 300).cache
        "https://api.twitter.com/2/tweets" "p1" true false 300).result
      = Except.error ⟨"/2/tweets", 2, 1⟩ ∧
    (TwClient.get 1000 (37 : Nat)
        (TwClient.get 0 (37 : Nat) ⟨[], 0⟩ []
          "https://api.twitter.com/2/tweets" "p1" true false 300).state
        (TwClient.get 0 (37 : Nat) ⟨[], 0⟩ []
          "https://api.twitter.com/2/tweets" "p1" true false 300).cache
        "https://api.twitter.com/2/tweets" "p1" true false 300).state.requestCounts
      = [("/2/tweets", 2)] := by
  exact ⟨rfl, rfl, rfl⟩

/-- C3 (amended): a cached response does not shield a call from the rate
limiter.  On a cache hit within the current window, `get` still increments
the endpoint's request count (the rate check runs before the cache lookup);
it returns the cached value — without a network call and leaving the cache
unchanged — only when the incremented count stays within the endpoint's
limit, and otherwise throws the rate-limit error despite the cache hit. -/
theorem get_cacheHit_consumes_quota {V : Type} (now : Nat) (net : V)
    (st : ClientState) (cache : Cache V) (url params : String) (ttl : Nat) (v : V)
    (hv : cacheGet now cache ("twitter:" ++ url ++ ":" ++ params) = some v)
    (hwin : now - st.lastReset
      ≤ (getRateLimit (urlPathname url)).windowMinutes * 60 * 1000) :
    TwClient.get now net st cache url params true false ttl =
      if getCount st.requestCounts (urlPathname url) + 1
          > (getRateLimit (urlPathname url)).limit then
        ⟨Except.error ⟨urlPathname url,
            getCount st.requestCounts (urlPathname url) + 1,
            (getRateLimit (urlPathname url)).limit⟩,
          ⟨bumpCount st.requestCounts (urlPathname url), st.lastReset⟩, cache, false⟩
      else
        ⟨Except.ok v,
          ⟨bumpCount st.requestCounts (urlPathname url), st.lastReset⟩, cache, false⟩ := by
  simp only [get]
  rw [checkRateLimit_not_expired now st (urlPathname url) hwin]
  by_cases hlim : getCount st.requestCounts (urlPathname url) + 1
      > (getRateLimit (urlPathname url)).limit
  · rw [if_pos hlim]
    simp [decide_eq_true hlim]
  · rw [if_neg hlim]
    simp [decide_eq_false hlim, hv]

/-- Witness for the amended C3 theorem: a cache hit on `/2/users/by/username`
(limit 3) with one prior request returns the cached value, no network call,
and count bumped from 1 to 2. -/
theorem get_cacheHit_consumes_quota_witness :
    TwClient.get 1000 (99 : Nat) ⟨[("/2/users/by/username", 1)], 0⟩
        [⟨"twitter:https://api.twitter.com/2/users/by/username:q1", 55, 60000⟩]
        "https://api.twitter.com/2/users/by/username" "q1" true false 300
      = ⟨Except.ok 55, ⟨[("/2/users/by/username", 2)], 0⟩,
          [⟨"twitter:https://api.twitter.com/2/users/by/username:q1", 55, 60000⟩],
          false⟩ := by
  have h := get_cacheHit_consumes_quota 1000 (99 : Nat)
    ⟨[("/2/users/by/username", 1)], 0⟩
    [⟨"twitter:https://api.twitter.com/2/users/by/username:q1", 55, 60000⟩]
    "https://api.twitter.com/2/users/by/username" "q1" 300 55 (by rfl) (by decide)
  exact h.trans (by rfl)

end TwClient

namespace TwClient

theorem get_uncached {V : Type} (now : Nat) (net : V) (st : ClientState)
    (url params : String) (ttl : Nat)
    (hwin : now - st.lastReset
      ≤ (getRateLimit (urlPathname url)).windowMinutes * 60 * 1000) :
    TwClient.get now net st ([] : Cache V) url params false false ttl =
      if getCount st.requestCounts (urlPathname url) + 1
          > (getRateLimit (urlPathname url)).limit then
        ⟨Except.error ⟨urlPathname url,
            getCount st.requestCounts (urlPathname url) + 1,
            (getRateLimit (urlPathname url)).limit⟩,
          ⟨bumpCount st.requestCounts (urlPathname url), st.lastReset⟩, [], false⟩
      else
        ⟨Except.ok net,
          ⟨bumpCount st.requestCounts (urlPathname url), st.lastReset⟩, [], true⟩ := by
  simp only [get]
  rw [checkRateLimit_not_expired now st (urlPathname url) hwin]
  by_cases hlim : getCount st.requestCounts (urlPathname url) + 1
      > (getRateLimit (urlPathname url)).limit
  · rw [if_pos hlim]
    simp [decide_eq_true hlim]
  · rw [if_neg hlim]
    simp [decide_eq_false hlim]

/-- Driver for the rate-limit gate property: `k` successive uncached
`get` calls (`options.useCache = false`) to the same URL at the same clock
value, collecting the results. -/
def getRepeat {V : Type} (now : Nat) (net : V) (url : String) :
    Nat → ClientState → List (Except RateLimitError V) × ClientState
  | 0, st => ([], st)
  | Nat.succ k, st =>
    let prev := getRepeat now net url k st
    let o := TwClient.get now net prev.2 ([] : Cache V) url "" false false 300
    (prev.1 ++ [o.result], o.state)

theorem getRepeat_spec {V : Type} (now : Nat) (net : V) (url : String)
    (N W : Nat) (d : String)
    (hcfg : getRateLimit (urlPathname url) = ⟨N, W, d⟩) :
    ∀ k, k ≤ N →
      getRepeat now net url k ⟨[], now⟩ =
        ((List.replicate k (Except.ok net) : List (Except RateLimitError V)),
          ⟨if k = 0 then [] else [(urlPathname url, k)], now⟩) := by
  intro k
  induction k with
  | zero => intro _; rfl
  | succ k ih =>
    intro hk
    have hprev := ih (Nat.le_of_succ_le hk)
    show (let prev := getRepeat now net url k ⟨[], now⟩
      let o := TwClient.get now net prev.2 ([] : Cache V) url "" false false 300
      (prev.1 ++ [o.result], o.state)) = _
    rw [hprev]
    have hcount : getCount (if k = 0 then [] else [(urlPathname url, k)])
        (urlPathname url) = k := by
      by_cases h0 : k = 0
      · subst h0; rfl
      · rw [if_neg h0]; simp [getCount, lookupKey]
    have hbump : bumpCount (if k = 0 then [] else [(urlPathname url, k)])
        (urlPathname url) = [(urlPathname url, k + 1)] := by
      by_cases h0 : k = 0
      · subst h0; rfl
      · rw [if_neg h0]; simp [bumpCount]
    dsimp only
    rw [get_uncached now net ⟨if k = 0 then [] else [(urlPathname url, k)], now⟩
      url "" 300 (by simp)]
    rw [hcount, hbump]
    rw [if_neg (show ¬ k + 1 > (getRateLimit (urlPathname url)).limit by
      rw [hcfg]; show ¬ k + 1 > N; omega)]
    dsimp only
    refine congrArg₂ Prod.mk ?_ ?_
    · rw [← List.replicate_succ']
    · rw [if_neg (Nat.succ_ne_zero k)]

/-- C4: for an endpoint whose configured limit is `N ≥ 1`, the first `N`
uncached calls in a window started by an explicit reset all succeed, the
`(N+1)`-th call in the same window throws the rate-limit error carrying the
endpoint, the current count `N+1` and the limit `N`, and after another
explicit `resetRateLimitCounters` the next call to the endpoint succeeds
again. -/
theorem rateLimit_gate {V : Type} (net : V) (url : String) (N W : Nat) (d : String)
    (hcfg : getRateLimit (urlPathname url) = ⟨N, W, d⟩) (hN : 1 ≤ N)
    (now now2 : Nat) (stAny stAny2 : ClientState) (params : String) :
    (∀ r ∈ (getRepeat now net url N (resetRateLimitCounters now stAny)).1,
        r = Except.ok net) ∧
    (TwClient.get now net (getRepeat now net url N (resetRateLimitCounters now stAny)).2
        ([] : Cache V) url params false false 300).result
      = Except.error ⟨urlPathname url, N + 1, N⟩ ∧
    (TwClient.get now2 net (resetRateLimitCounters now2 stAny2)
        ([] : Cache V) url params false false 300).result
      = Except.ok net := by
  have hrep : getRepeat now net url N (resetRateLimitCounters now stAny) =
      ((List.replicate N (Except.ok net) : List (Except RateLimitError V)),
        ⟨if N = 0 then [] else [(urlPathname url, N)], now⟩) :=
    getRepeat_spec now net url N W d hcfg N (Nat.le_refl N)
  refine ⟨?_, ?_, ?_⟩
  · intro r hr
    rw [hrep] at hr
    exact List.eq_of_mem_replicate hr
  · rw [hrep]
    have hcount : getCount (if N = 0 then [] else [(urlPathname url, N)])
        (urlPathname url) = N := by
      rw [if_neg (by omega : ¬ N = 0)]
      simp [getCount, lookupKey]
    rw [get_uncached now net ⟨if N = 0 then [] else [(urlPathname url, N)], now⟩
      url params 300 (by simp)]
    rw [hcount, if_pos (show N + 1 > (getRateLimit (urlPathname url)).limit by
      rw [hcfg]; show N + 1 > N; omega)]
    rw [hcfg]
  · rw [get_uncached now2 net (resetRateLimitCounters now2 stAny2)
      url params 300 (by simp [resetRateLimitCounters])]
    rw [if_neg (by simp [resetRateLimitCounters, getCount, lookupKey, hcfg]; omega)]

end TwClient

namespace TwClient

/-- Witness for the C4 rate-limit gate theorem on `/2/tweets` (limit 1,
window 15 min): the first call succeeds, the second throws the rate-limit
error reporting `/2/tweets`, 2 and 1, and a call after an explicit reset
succeeds. -/
theorem rateLimit_gate_witness :
    (∀ r ∈ (getRepeat 0 (42 : Nat) "https://api.twitter.com/2/tweets" 1
        (resetRateLimitCounters 0 ⟨[], 0⟩)).1, r = Except.ok 42) ∧
    (TwClient.get 0 (42 : Nat)
        (getRepeat 0 (42 : Nat) "https://api.twitter.com/2/tweets" 1
          (resetRateLimitCounters 0 ⟨[], 0⟩)).2
        ([] : Cache Nat) "https://api.twitter.com/2/tweets" "pp" false false 300).result
      = Except.error ⟨"/2/tweets", 2, 1⟩ ∧
    (TwClient.get 0 (42 : Nat) (resetRateLimitCounters 0 ⟨[], 0⟩)
        ([] : Cache Nat) "https://api.twitter.com/2/tweets" "pp" false false 300).result
      = Except.ok 42 := by
  have h := rateLimit_gate (42 : Nat) "https://api.twitter.com/2/tweets" 1 15
    "Tweet lookup" (by decide) (by decide) 0 0 ⟨[], 0⟩ ⟨[], 0⟩ "pp"
  exact ⟨h.1, h.2.1, h.2.2⟩

end TwClient

namespace Stats

/-- A JavaScript number-or-not value as stored in an accumulator entry:
an absent property reads as `undefined`, and `undefined + n` or `NaN + n`
is `NaN`. -/
inductive JsVal where
  | undef
  | nan
  | num (n : Int)
deriving DecidableEq

/-- JavaScript `+` on accumulator values. -/
def jsAdd : JsVal → JsVal → JsVal
  | JsVal.num a, JsVal.num b => JsVal.num (a + b)
  | _, _ => JsVal.nan

/-- An accumulator entry, a plain JavaScript object: property list in
insertion order. -/
abbrev Entry : Type := List (String × JsVal)

/-- Property read, `undefined` when absent. -/
def objGet (e : Entry) (k : String) : JsVal :=
  (TwClient.lookupKey e k).getD JsVal.undef

/-- Property write: overwrite in place or append a new property. -/
def objSet : Entry → String → JsVal → Entry
  | [], k, v => [(k, v)]
  | p :: rest, k, v =>
    if p.1 = k then (p.1, v) :: rest else p :: objSet rest k v

/-- The fresh entry created by `accumulateUserStat`
(`src/utils/aggregator.js` lines 13-19). -/
def initEntry : Entry :=
  [("messagesCount", JsVal.num 0),
   ("reactionsCount", JsVal.num 0),
   ("voiceMinutes", JsVal.num 0)]

/-- The `userStatsAccumulator` Map: discordId to entry, insertion order. -/
abbrev AccMap : Type := List (String × Entry)

/-- Update the entry stored under `key`, if present. -/
def mapUpdate : AccMap → String → (Entry → Entry) → AccMap
  | [], _, _ => []
  | p :: rest, key, f =>
    if p.1 = key then (p.1, f p.2) :: rest else p :: mapUpdate rest key f

/-- `accumulateUserStat(discordId, field, increment)` from
`src/utils/aggregator.js`: create the zero entry when the user is absent,
then `entry[field] += increment` with JavaScript addition. -/
def accumulateUserStat (m : AccMap) (discordId field : String) (increment : Int) :
    AccMap :=
  let m1 := if (TwClient.lookupKey m discordId).isSome then m
    else m ++ [(discordId, initEntry)]
  mapUpdate m1 discordId
    (fun e => objSet e field (jsAdd (objGet e field) (JsVal.num increment)))

/-- A document of the `User` collection restricted to the fields the stats
flusher and milestone check read and write. -/
structure StatUser where
  discordId : String
  messagesCount : Int
  reactionsCount : Int
  voiceMinutes : Int
  coins : Int
deriving DecidableEq

/-- The `incFields` object built for one accumulator entry by
`flushStatsToDB` (`src/utils/flushStats.js` lines 22-33): each of the three
known counters is included exactly when its pending value compares `> 0`
(false for `NaN`/`undefined`). -/
def buildIncFields (e : Entry) : List (String × Int) :=
  (match objGet e "messagesCount" with
    | JsVal.num n => if 0 < n then [("messagesCount", n)] else []
    | _ => []) ++
  (match objGet e "reactionsCount" with
    | JsVal.num n => if 0 < n then [("reactionsCount", n)] else []
    | _ => []) ++
  (match objGet e "voiceMinutes" with
    | JsVal.num n => if 0 < n then [("voiceMinutes", n)] else []
    | _ => [])

/-- The `bulkOps` list of `flushStatsToDB`: one
`updateOne {filter: {discordId}, update: {$inc: incFields}, upsert: true}`
per accumulated user with a non-empty `incFields`. -/
def flushBulkOps (m : AccMap) : List (String × List (String × Int)) :=
  m.filterMap fun p =>
    let fs := buildIncFields p.2
    if fs = [] then none else some (p.1, fs)

/-- Apply an `$inc` document to one user document, field by field. -/
def incDoc : StatUser → List (String × Int) → StatUser
  | d, [] => d
  | d, f :: fs =>
    incDoc
      (if f.1 = "messagesCount" then { d with messagesCount := d.messagesCount + f.2 }
       else if f.1 = "reactionsCount" then { d with reactionsCount := d.reactionsCount + f.2 }
       else if f.1 = "voiceMinutes" then { d with voiceMinutes := d.voiceMinutes + f.2 }
       else d)
      fs

/-- `updateOne({discordId}, {$inc: fs, $setOnInsert: {discordId}}, {upsert})`:
increment the first document matching the unique `discordId`, or insert a
fresh zero document with the increments applied. -/
def applyIncUpsert : List StatUser → String → List (String × Int) → List StatUser
  | [], uid, fs => [incDoc ⟨uid, 0, 0, 0, 0⟩ fs]
  | d :: rest, uid, fs =>
    if d.discordId = uid then incDoc d fs :: rest
    else d :: applyIncUpsert rest uid fs

/-- `checkMilestones(userDoc)` from `src/utils/milestoneCheck.js`: awards the
configured bonus for every counter whose value EXACTLY equals a threshold
(messages 50 -> 1, messages 100 -> 2, reactions 50 -> 1, voice 30 -> 1). -/
def checkMilestones (d : StatUser) : StatUser :=
  let coinsToAward : Int :=
    (if d.messagesCount = 50 then 1 else 0) +
    (if d.messagesCount = 100 then 2 else 0) +
    (if d.reactionsCount = 50 then 1 else 0) +
    (if d.voiceMinutes = 30 then 1 else 0)
  if 0 < coinsToAward then { d with coins := d.coins + coinsToAward } else d

/-- `userStatsAccumulator.clear()`. -/
def mapClear (_ : AccMap) : AccMap := []

/-- `flushStatsToDB()` from `src/utils/flushStats.js`: early return on an
empty accumulator; otherwise build the bulk operations, apply them as one
batched write, re-read the updated users and run `checkMilestones` on each,
then clear the WHOLE accumulator.  Returns the accumulator and store left
behind. -/
def flushStatsToDB (m : AccMap) (store : List StatUser) :
    AccMap × List StatUser :=
  if m = [] then (m, store)
  else
    let bulkOps := flushBulkOps m
    if bulkOps = [] then (mapClear m, store)
    else
      let updatedDiscordIds := bulkOps.map Prod.fst
      let store1 := bulkOps.foldl (fun s op => applyIncUpsert s op.1 op.2) store
      let store2 := store1.map fun d =>
        if d.discordId ∈ updatedDiscordIds then checkMilestones d else d
      (mapClear m, store2)

/-- `flushStatsToDB` with one `accumulateUserStat(uid, field, inc)` arriving
at a suspension point inside the flush: the `bulkOps` snapshot is built
synchronously before the first `await`, the accumulation lands during one of
the awaited store operations, and `userStatsAccumulator.clear()` afterwards
clears the whole map, the new accumulation included.  (When the accumulator
is empty the flush returns synchronously before any suspension, so the
accumulation simply runs after it.) -/
def flushStatsWithMidAccumulate (m : AccMap) (store : List StatUser)
    (uid field : String) (inc : Int) : AccMap × List StatUser :=
  if m = [] then (accumulateUserStat m uid field inc, store)
  else
    let bulkOps := flushBulkOps m
    let mMid := accumulateUserStat m uid field inc
    if bulkOps = [] then (mapClear mMid, store)
    else
      let updatedDiscordIds := bulkOps.map Prod.fst
      let store1 := bulkOps.foldl (fun s op => applyIncUpsert s op.1 op.2) store
      let store2 := store1.map fun d =>
        if d.discordId ∈ updatedDiscordIds then checkMilestones d else d
      (mapClear mMid, store2)

end Stats

namespace Stats

/-- C6 (counterexample): accumulator holds one pending message for `U2`; a
second `accumulateUserStat("U2","messagesCount",1)` arrives while the flush
is awaiting its batched write.  Afterwards the store shows `messagesCount`
1 (the mid-flush increment was not in the batched write) and the
accumulator is empty (it is not pending either): the increment is lost,
refuting the claim that it is either written or still pending. -/
theorem flush_midAccumulate_counterexample :
    flushStatsWithMidAccumulate (accumulateUserStat [] "U2" "messagesCount" 1)
        [⟨"U2", 0, 0, 0, 0⟩] "U2" "messagesCount" 1
      = ([], [⟨"U2", 1, 0, 0, 0⟩]) ∧
    flushStatsToDB (accumulateUserStat [] "U2" "messagesCount" 1)
        [⟨"U2", 0, 0, 0, 0⟩]
      = ([], [⟨"U2", 1, 0, 0, 0⟩]) := by
  exact ⟨by decide, by decide⟩

/-- C6 (amended): an `accumulateUserStat` increment arriving after a
non-trivial flush has read the accumulator entries but before the flush
completes is LOST: the flush's batched write is built from the pre-arrival
snapshot and `userStatsAccumulator.clear()` then erases the whole map, so
the interleaved increment has no effect at all — the outcome equals that of
the flush without the increment, and the accumulator ends empty rather than
retaining the unwritten value. -/
theorem flush_midAccumulate_lost (m : AccMap) (store : List StatUser)
    (uid field : String) (inc : Int) (h : m ≠ []) :
    flushStatsWithMidAccumulate m store uid field inc = flushStatsToDB m store := by
  rw [flushStatsWithMidAccumulate, flushStatsToDB, if_neg h, if_neg h]
  rfl

/-- Witness for the amended C6 theorem at the concrete lost-update input. -/
theorem flush_midAccumulate_lost_witness :
    accumulateUserStat [] "U2" "messagesCount" 1 ≠ [] ∧
    flushStatsWithMidAccumulate (accumulateUserStat [] "U2" "messagesCount" 1)
        [⟨"U2", 0, 0, 0, 0⟩] "U2" "messagesCount" 1
      = flushStatsToDB (accumulateUserStat [] "U2" "messagesCount" 1)
        [⟨"U2", 0, 0, 0, 0⟩] :=
  ⟨by decide,
    flush_midAccumulate_lost (accumulateUserStat [] "U2" "messagesCount" 1)
      [⟨"U2", 0, 0, 0, 0⟩] "U2" "messagesCount" 1 (by decide)⟩

end Stats

namespace Stats

/-- C7 (counterexample): user at 49 messages; a flush of one pending message
lands the counter exactly on 50 and grants 1 coin.  A second flush of one
pending REACTION re-reads the user, `checkMilestones` sees `messagesCount`
still equal to 50 and grants the same (user, messagesCount, 50) bonus a
second time: coins 0 to 1 to 2 — the bonus is not at-most-once. -/
theorem milestone_double_grant_counterexample :
    flushStatsToDB (accumulateUserStat [] "U1" "messagesCount" 1)
        [⟨"U1", 49, 0, 0, 0⟩]
      = ([], [⟨"U1", 50, 0, 0, 1⟩]) ∧
    flushStatsToDB (accumulateUserStat [] "U1" "reactionsCount" 1)
        [⟨"U1", 50, 0, 0, 1⟩]
      = ([], [⟨"U1", 50, 1, 0, 2⟩]) := by
  exact ⟨by decide, by decide⟩

theorem checkMilestones_coins (d : StatUser) :
    checkMilestones d = { d with coins := d.coins +
      ((if d.messagesCount = 50 then 1 else 0) +
       (if d.messagesCount = 100 then 2 else 0) +
       (if d.reactionsCount = 50 then 1 else 0) +
       (if d.voiceMinutes = 30 then 1 else 0)) } := by
  simp only [checkMilestones]
  by_cases h : (0:Int) <
      (if d.messagesCount = 50 then 1 else 0) +
      (if d.messagesCount = 100 then 2 else 0) +
      (if d.reactionsCount = 50 then 1 else 0) +
      (if d.voiceMinutes = 30 then 1 else 0)
  · rw [if_pos h]
  · rw [if_neg h]
    have h0 : (if d.messagesCount = 50 then (1:Int) else 0) +
        (if d.messagesCount = 100 then 2 else 0) +
        (if d.reactionsCount = 50 then 1 else 0) +
        (if d.voiceMinutes = 30 then 1 else 0) = 0 := by
      split_ifs at h ⊢ <;> omega
    rw [h0, add_zero]

theorem applyIncUpsert_middle (uid : String) (fs : List (String × Int))
    (d : StatUser) (hd : d.discordId = uid) :
    ∀ (pre post : List StatUser), uid ∉ pre.map StatUser.discordId →
      applyIncUpsert (pre ++ d :: post) uid fs = pre ++ incDoc d fs :: post := by
  intro pre
  induction pre with
  | nil =>
    intro post _
    show applyIncUpsert (d :: post) uid fs = _
    simp [applyIncUpsert, hd]
  | cons p rest ih =>
    intro post hpre
    simp only [List.map_cons, List.mem_cons] at hpre
    push_neg at hpre
    show applyIncUpsert (p :: (rest ++ d :: post)) uid fs = _
    rw [applyIncUpsert, if_neg (fun hh => hpre.1 hh.symm), ih post hpre.2]
    rfl

theorem map_milestone_not_mem (uid : String) :
    ∀ (l : List StatUser), uid ∉ l.map StatUser.discordId →
      l.map (fun x => if x.discordId ∈ [uid] then checkMilestones x else x) = l := by
  intro l
  induction l with
  | nil => intro _; rfl
  | cons x rest ih =>
    intro h
    simp only [List.map_cons, List.mem_cons] at h
    push_neg at h
    simp only [List.map_cons]
    rw [if_neg (fun hm => h.1 (List.mem_singleton.mp hm).symm), ih h.2]

/-- The accumulator entry that `accumulateUserStat` leaves for a user whose
three counters hold pending amounts `a`, `b`, `c`. -/
def mkEntry (a b c : Int) : Entry :=
  [("messagesCount", JsVal.num a),
   ("reactionsCount", JsVal.num b),
   ("voiceMinutes", JsVal.num c)]

theorem buildIncFields_mkEntry (a b c : Int) :
    buildIncFields (mkEntry a b c) =
      (if 0 < a then [("messagesCount", a)] else []) ++
      (if 0 < b then [("reactionsCount", b)] else []) ++
      (if 0 < c then [("voiceMinutes", c)] else []) := rfl

theorem incDoc_mkEntry (d : StatUser) (a b c : Int) :
    incDoc d ((if 0 < a then [("messagesCount", a)] else []) ++
        (if 0 < b then [("reactionsCount", b)] else []) ++
        (if 0 < c then [("voiceMinutes", c)] else [])) =
      { d with
        messagesCount := d.messagesCount + (if 0 < a then a else 0),
        reactionsCount := d.reactionsCount + (if 0 < b then b else 0),
        voiceMinutes := d.voiceMinutes + (if 0 < c then c else 0) } := by
  split_ifs with h1 h2 h3 <;> simp [incDoc]

end Stats

namespace Stats

/-- C7 (amended): flushing a single user's pending increments `(a, b, c)`
(at least one positive) adds exactly the positive pending amounts to the
stored counters and then grants milestone bonuses by EXACT equality on the
post-flush values: +1 coin if messages land exactly on 50, +2 on exactly
100, +1 if reactions land exactly on 50, +1 if voice lands exactly on 30.
A counter that jumps over a threshold grants nothing; and because the check
is by current value, not by crossing, a later flush that touches the same
user while a counter still sits exactly on a threshold grants the same
bonus again — at-most-once is not guaranteed. -/
theorem flush_milestone_exact (uid : String) (a b c : Int)
    (pre post : List StatUser) (d : StatUser) (hd : d.discordId = uid)
    (hpre : uid ∉ pre.map StatUser.discordId)
    (hpost : uid ∉ post.map StatUser.discordId)
    (hpos : 0 < a ∨ 0 < b ∨ 0 < c) :
    flushStatsToDB [(uid, mkEntry a b c)] (pre ++ d :: post) =
      ([], pre ++
        { d with
          messagesCount := d.messagesCount + (if 0 < a then a else 0),
          reactionsCount := d.reactionsCount + (if 0 < b then b else 0),
          voiceMinutes := d.voiceMinutes + (if 0 < c then c else 0),
          coins := d.coins +
            ((if d.messagesCount + (if 0 < a then a else 0) = 50 then 1 else 0) +
             (if d.messagesCount + (if 0 < a then a else 0) = 100 then 2 else 0) +
             (if d.reactionsCount + (if 0 < b then b else 0) = 50 then 1 else 0) +
             (if d.voiceMinutes + (if 0 < c then c else 0) = 30 then 1 else 0)) }
        :: post) := by
  have hne : buildIncFields (mkEntry a b c) ≠ [] := by
    rw [buildIncFields_mkEntry]
    rcases hpos with h | h | h <;> simp [h]
  have hops : flushBulkOps [(uid, mkEntry a b c)]
      = [(uid, buildIncFields (mkEntry a b c))] := by
    simp [flushBulkOps, hne]
  unfold flushStatsToDB
  rw [if_neg (show ([(uid, mkEntry a b c)] : AccMap) ≠ [] by simp)]
  dsimp only
  rw [hops]
  rw [if_neg (show ([(uid, buildIncFields (mkEntry a b c))] :
      List (String × List (String × Int))) ≠ [] by simp)]
  dsimp only [List.foldl_cons, List.foldl_nil, List.map_cons, List.map_nil]
  rw [applyIncUpsert_middle uid (buildIncFields (mkEntry a b c)) d hd pre post hpre]
  rw [buildIncFields_mkEntry, incDoc_mkEntry]
  rw [List.map_append, List.map_cons]
  rw [map_milestone_not_mem uid pre hpre, map_milestone_not_mem uid post hpost]
  rw [if_pos (show ({ d with
      messagesCount := d.messagesCount + (if 0 < a then a else 0),
      reactionsCount := d.reactionsCount + (if 0 < b then b else 0),
      voiceMinutes := d.voiceMinutes + (if 0 < c then c else 0) }
        : StatUser).discordId ∈ [uid] by simp [hd])]
  rw [checkMilestones_coins]
  rfl

/-- Witness for the amended C7 theorem: one pending message flushes a user
from 49 to exactly 50 messages and grants the configured 1-coin bonus. -/
theorem flush_milestone_exact_witness :
    flushStatsToDB [("U9", mkEntry 1 0 0)] [⟨"U9", 49, 0, 0, 5⟩]
      = ([], [⟨"U9", 50, 0, 0, 6⟩]) := by
  have h := flush_milestone_exact "U9" 1 0 0 [] [] ⟨"U9", 49, 0, 0, 5⟩ rfl
    (by simp) (by simp) (Or.inl (by norm_num))
  exact h.trans (by decide)

end Stats

namespace Stats

theorem lookupKey_mapUpdate (m : AccMap) (key : String) (f : Entry → Entry) :
    TwClient.lookupKey (mapUpdate m key f) key
      = (TwClient.lookupKey m key).map f := by
  induction m with
  | nil => rfl
  | cons p rest ih =>
    by_cases h : p.1 = key
    · simp [mapUpdate, TwClient.lookupKey, h]
    · simp only [mapUpdate, if_neg h, TwClient.lookupKey, if_neg h]
      exact ih

theorem lookupKey_append_absent {α : Type} (m : List (String × α)) (uid : String)
    (v : α) (h : TwClient.lookupKey m uid = none) :
    TwClient.lookupKey (m ++ [(uid, v)]) uid = some v := by
  induction m with
  | nil => simp [TwClient.lookupKey]
  | cons p rest ih =>
    by_cases hp : p.1 = uid
    · rw [TwClient.lookupKey, if_pos hp] at h
      exact absurd h (by simp)
    · rw [TwClient.lookupKey, if_neg hp] at h
      rw [List.cons_append, TwClient.lookupKey, if_neg hp]
      exact ih h

theorem mem_buildIncFields {e : Entry} {f : String} {n : Int}
    (h : (f, n) ∈ buildIncFields e) :
    f = "messagesCount" ∨ f = "reactionsCount" ∨ f = "voiceMinutes" := by
  unfold buildIncFields at h
  rcases List.mem_append.mp h with h1 | h1
  · rcases List.mem_append.mp h1 with h2 | h2
    · cases hobj : objGet e "messagesCount" with
      | num k =>
        rw [hobj] at h2
        dsimp only at h2
        by_cases hk : 0 < k
        · rw [if_pos hk] at h2
          simp at h2
          exact Or.inl h2.1
        · rw [if_neg hk] at h2
          exact absurd h2 (List.not_mem_nil _)
      | undef => rw [hobj] at h2; exact absurd h2 (List.not_mem_nil _)
      | nan => rw [hobj] at h2; exact absurd h2 (List.not_mem_nil _)
    · cases hobj : objGet e "reactionsCount" with
      | num k =>
        rw [hobj] at h2
        dsimp only at h2
        by_cases hk : 0 < k
        · rw [if_pos hk] at h2
          simp at h2
          exact Or.inr (Or.inl h2.1)
        · rw [if_neg hk] at h2
          exact absurd h2 (List.not_mem_nil _)
      | undef => rw [hobj] at h2; exact absurd h2 (List.not_mem_nil _)
      | nan => rw [hobj] at h2; exact absurd h2 (List.not_mem_nil _)
  · cases hobj : objGet e "voiceMinutes" with
    | num k =>
      rw [hobj] at h1
      dsimp only at h1
      by_cases hk : 0 < k
      · rw [if_pos hk] at h1
        simp at h1
        exact Or.inr (Or.inr h1.1)
      · rw [if_neg hk] at h1
        exact absurd h1 (List.not_mem_nil _)
    | undef => rw [hobj] at h1; exact absurd h1 (List.not_mem_nil _)
    | nan => rw [hobj] at h1; exact absurd h1 (List.not_mem_nil _)

/-- C10: `accumulateUserStat` is well-defined exactly for the three known
counters.  (i) For an absent user and one of the three fields, the call
creates the all-zero entry and leaves the field at exactly the given
increment.  (ii) For a present user whose pending value is the number `v`,
the call sets it to exactly `v + inc`.  (iii) For an absent user and any
other field name the resulting pending value is `NaN`
(`undefined + inc`), and (iv) likewise a present non-numeric pending value
stays `NaN`.  (v) No flush bulk operation ever carries a field other than
`messagesCount`, `reactionsCount` or `voiceMinutes`, so such a `NaN` field
is never written to the store. -/
theorem accumulateUserStat_fields :
    (∀ (m : AccMap) (uid field : String) (inc : Int),
      TwClient.lookupKey m uid = none →
      (field = "messagesCount" ∨ field = "reactionsCount" ∨ field = "voiceMinutes") →
      TwClient.lookupKey (accumulateUserStat m uid field inc) uid
        = some (objSet initEntry field (JsVal.num inc))) ∧
    (∀ (m : AccMap) (uid field : String) (inc v : Int) (e : Entry),
      TwClient.lookupKey m uid = some e →
      objGet e field = JsVal.num v →
      TwClient.lookupKey (accumulateUserStat m uid field inc) uid
        = some (objSet e field (JsVal.num (v + inc)))) ∧
    (∀ (m : AccMap) (uid field : String) (inc : Int),
      TwClient.lookupKey m uid = none →
      ¬(field = "messagesCount" ∨ field = "reactionsCount" ∨ field = "voiceMinutes") →
      TwClient.lookupKey (accumulateUserStat m uid field inc) uid
        = some (objSet initEntry field JsVal.nan)) ∧
    (∀ (m : AccMap) (uid field : String) (inc : Int) (e : Entry),
      TwClient.lookupKey m uid = some e →
      (objGet e field = JsVal.undef ∨ objGet e field = JsVal.nan) →
      TwClient.lookupKey (accumulateUserStat m uid field inc) uid
        = some (objSet e field JsVal.nan)) ∧
    (∀ (m : AccMap) (uid : String) (fs : List (String × Int)) (f : String) (n : Int),
      (uid, fs) ∈ flushBulkOps m → (f, n) ∈ fs →
      f = "messagesCount" ∨ f = "reactionsCount" ∨ f = "voiceMinutes") := by
  refine ⟨?_, ?_, ?_, ?_, ?_⟩
  · intro m uid field inc habs hf
    simp only [accumulateUserStat, habs, Option.isSome_none, Bool.false_eq_true,
      if_false]
    rw [lookupKey_mapUpdate, lookupKey_append_absent m uid initEntry habs]
    rcases hf with rfl | rfl | rfl <;>
      simp [objGet, initEntry, TwClient.lookupKey, jsAdd]
  · intro m uid field inc v e hsome hval
    simp only [accumulateUserStat, hsome, Option.isSome_some, if_true]
    rw [lookupKey_mapUpdate, hsome]
    simp [hval, jsAdd]
  · intro m uid field inc habs hf
    push_neg at hf
    simp only [accumulateUserStat, habs, Option.isSome_none, Bool.false_eq_true,
      if_false]
    rw [lookupKey_mapUpdate, lookupKey_append_absent m uid initEntry habs]
    simp [objGet, initEntry, TwClient.lookupKey, jsAdd,
      Ne.symm hf.1, Ne.symm hf.2.1, Ne.symm hf.2.2]
  · intro m uid field inc e hsome hval
    simp only [accumulateUserStat, hsome, Option.isSome_some, if_true]
    rw [lookupKey_mapUpdate, hsome]
    rcases hval with hval | hval <;> simp [hval, jsAdd]
  · intro m uid fs f n hmem hfn
    obtain ⟨p, _, hp⟩ := List.mem_filterMap.mp hmem
    by_cases hb : buildIncFields p.2 = []
    · rw [if_pos hb] at hp
      exact absurd hp (by simp)
    · rw [if_neg hb] at hp
      obtain ⟨h1, h2⟩ := Prod.mk.injEq _ _ _ _ ▸ Option.some.injEq _ _ ▸ hp
      exact mem_buildIncFields (h2 ▸ hfn)

/-- Witness for the C10 theorem: each of its five parts at a concrete
input. -/
theorem accumulateUserStat_fields_witness :
    TwClient.lookupKey (accumulateUserStat [] "U1" "messagesCount" 4) "U1"
      = some (objSet initEntry "messagesCount" (JsVal.num 4)) ∧
    TwClient.lookupKey
        (accumulateUserStat [("U1", mkEntry 4 0 0)] "U1" "messagesCount" 5) "U1"
      = some (objSet (mkEntry 4 0 0) "messagesCount" (JsVal.num 9)) ∧
    TwClient.lookupKey (accumulateUserStat [] "U1" "bogus" 4) "U1"
      = some (objSet initEntry "bogus" JsVal.nan) ∧
    TwClient.lookupKey
        (accumulateUserStat [("U1", objSet initEntry "bogus" JsVal.nan)]
          "U1" "bogus" 4) "U1"
      = some (objSet (objSet initEntry "bogus" JsVal.nan) "bogus" JsVal.nan) ∧
    ("messagesCount" = "messagesCount" ∨ "messagesCount" = "reactionsCount" ∨
      "messagesCount" = "voiceMinutes") := by
  refine ⟨?_, ?_, ?_, ?_, ?_⟩
  · exact accumulateUserStat_fields.1 [] "U1" "messagesCount" 4 rfl (Or.inl rfl)
  · exact (accumulateUserStat_fields.2.1 [("U1", mkEntry 4 0 0)] "U1"
      "messagesCount" 5 4 (mkEntry 4 0 0) (by decide) (by decide)).trans (by decide)
  · exact accumulateUserStat_fields.2.2.1 [] "U1" "bogus" 4 rfl (by decide)
  · exact accumulateUserStat_fields.2.2.2.1 [("U1", objSet initEntry "bogus" JsVal.nan)]
      "U1" "bogus" 4 (objSet initEntry "bogus" JsVal.nan) (by decide)
      (Or.inr (by decide))
  · exact accumulateUserStat_fields.2.2.2.2 [("U1", mkEntry 4 0 0)] "U1"
      [("messagesCount", 4)] "messagesCount" 4 (by decide) (by decide)

end Stats
